import Mathlib

/-
Verification development for mira-labs/rmrf: a concurrent `rm -rf` engine.

Shallow embedding of the Go sources:
  * src/internal/config/defaults.go        (Options, DefaultOptions, With* combinators)
  * reporter package (src/unnamed/part_003) (Stats, AddError; ProgressReporter, Update)
  * src/internal/deleter/deleter.go        (Deleter, New, Delete)
  * src/internal/deleter/concurrent.go     (deleteRecursive, processFile,
                                            validatePath, makeDeletable)

Modelling conventions:
  * Go `int` fields become `Int`; Go `float64` time arithmetic becomes `ℚ`.
  * The filesystem is a finite tree (`FSNode`).  Failure modes of the syscalls
    used by the code (`os.Chmod`, `os.ReadDir`, `os.Remove`) are carried as
    boolean flags on the nodes; `os.Remove` on a directory succeeds exactly
    when the directory is empty.
  * Filesystem mutations actually performed are accumulated as an `FsOp` trace.
  * The traversal semantics (`deleteRec`/`deleteEntries`) is the sequential
    denotation of `deleteRecursive`: spawned subtree tasks are linearized in
    entry order.  The concurrency-specific aspects (the `sync.WaitGroup`
    completion barrier and the semaphore spawn/inline dispatch of
    concurrent.go lines 35-52) are modelled separately and faithfully by
    `DispatchStep`/`DispatchTrace`/`wgRun` below, and the locking discipline
    of each shared-state mutation statement by `sharedMutationSites`.
-/

namespace Rmrf

/-- Go `config.Options` (src/internal/config). -/
structure Options where
  MaxThreads : Nat
  DryRun : Bool
  Interactive : Bool
  Verbose : Bool
  SkipSymlinks : Bool
  DangerousPaths : List String
deriving Repr, DecidableEq

/-- Go `config.DefaultOptions` (src/internal/config/defaults.go); `runtime.NumCPU()`
is a parameter of the model. -/
def DefaultOptions (numCPU : Nat) : Options :=
  { MaxThreads := numCPU
    DryRun := false
    Interactive := false
    Verbose := false
    SkipSymlinks := true
    DangerousPaths := ["/", "/etc", "/usr", "/bin", "/sbin"] }

/-- Go `config.WithMaxThreads`. -/
def WithMaxThreads (n : Nat) : Options → Options := fun o => { o with MaxThreads := n }

/-- Go `config.WithDryRun`. -/
def WithDryRun (b : Bool) : Options → Options := fun o => { o with DryRun := b }

/-- Go `config.WithInteractive`. -/
def WithInteractive (b : Bool) : Options → Options := fun o => { o with Interactive := b }

/-- Go `config.WithVerbose`. -/
def WithVerbose (b : Bool) : Options → Options := fun o => { o with Verbose := b }

/-- Go `reporter.Stats` (errors modelled by their message strings; the `mu` mutex
has no sequential content — the lock discipline of each mutating statement is
recorded in `sharedMutationSites`). -/
structure Stats where
  FilesDeleted : Int
  DirsDeleted : Int
  Errors : List String
deriving Repr, DecidableEq

/-- Go `reporter.DefaultStats`. -/
def DefaultStats : Stats :=
  { FilesDeleted := 0, DirsDeleted := 0, Errors := [] }

/-- Go `reporter.Stats.AddError`: appends the error (source holds `s.mu` around
the append). -/
def Stats.AddError (s : Stats) (e : String) : Stats :=
  { s with Errors := s.Errors ++ [e] }

/-- Go `reporter.ProgressReporter` (src/unnamed/part_003).  `startTime` in
rational seconds. -/
structure ProgressReporter where
  Total : Int
  Processed : Int
  startTime : ℚ
deriving Repr, DecidableEq

/-- Go `reporter.NewProgressReporter` (the creation instant is the `now`
parameter, standing for `time.Now()`). -/
def NewProgressReporter (total : Int) (now : ℚ) : ProgressReporter :=
  { Total := total, Processed := 0, startTime := now }

/-- A Go `float64` division whose divisor may be zero: `none` means the
division was performed with a zero divisor (IEEE result `±Inf`/`NaN`, i.e. not
a finite number). -/
def fdiv (a b : ℚ) : Option ℚ :=
  if b = 0 then none else some (a / b)

/-- Result of one `ProgressReporter.Update` call: the new state, plus the
`rate` and the `remaining` (eta) values it computes and prints.  `none` marks
a value produced by a zero-divisor division. -/
structure UpdateResult where
  state : ProgressReporter
  rate : Option ℚ
  eta : Option ℚ
deriving Repr, DecidableEq

/-- Go `reporter.ProgressReporter.Update` (src/unnamed/part_003 lines 22-33):
`p.Processed += count`, then `rate := float64(p.Processed) / elapsed.Seconds()`
and `remaining := float64(p.Total-p.Processed) / rate`, both unconditionally.
`now` stands for `time.Now()` at the call.  When `elapsed = 0` the rate is a
zero-divisor division (`none`); its IEEE value is `±Inf`/`NaN` and the eta
division then has a nonfinite (but nonzero) divisor, so eta is also `none`
(not a finite number).  When `elapsed ≠ 0` and the computed rate is `0`, the
eta division has divisor zero (`none`). -/
def ProgressReporter.Update (p : ProgressReporter) (count : Int) (now : ℚ) : UpdateResult :=
  let p' : ProgressReporter := { p with Processed := p.Processed + count }
  let elapsed : ℚ := now - p.startTime
  let rate : Option ℚ := fdiv (p'.Processed : ℚ) elapsed
  let eta : Option ℚ :=
    match rate with
    | none => none
    | some r => fdiv ((p'.Total - p'.Processed : Int) : ℚ) r
  { state := p', rate := rate, eta := eta }

/-- The state effect of `ProgressReporter.Update` (the `p.Processed += count`
line); the rate/eta computation only prints.  Used by the traversal model,
where the call instants are irrelevant. -/
def ProgressReporter.UpdateState (p : ProgressReporter) (count : Int) : ProgressReporter :=
  { p with Processed := p.Processed + count }

mutual

/-- A filesystem node.  `chmodFails` / `removeFails` / `readFails` say whether
the corresponding syscall on this node fails (permission problems). -/
inductive FSNode : Type where
  | file (chmodFails removeFails : Bool) : FSNode
  | symlink : FSNode
  | dir (chmodFails readFails : Bool) (entries : EntryList) : FSNode

/-- Directory entries: a name plus the node it denotes, in listing order. -/
inductive EntryList : Type where
  | nil : EntryList
  | cons (name : String) (node : FSNode) (rest : EntryList) : EntryList

end

deriving instance DecidableEq for FSNode

deriving instance DecidableEq for EntryList

deriving instance Repr for FSNode

deriving instance Repr for EntryList

/-- Number of entries (`len(entries)`). -/
def EntryList.length : EntryList → Nat
  | .nil => 0
  | .cons _ _ rest => 1 + rest.length

/-- Whether the listing is empty (`os.Remove` on a directory succeeds exactly
on an empty one). -/
def EntryList.isNil : EntryList → Bool
  | .nil => true
  | .cons _ _ _ => false

/-- Go `entry.IsDir()`. -/
def FSNode.isDir : FSNode → Bool
  | .dir _ _ _ => true
  | _ => false

/-- Go `entry.Type()&os.ModeSymlink != 0`. -/
def FSNode.isSymlink : FSNode → Bool
  | .symlink => true
  | _ => false

/-- Whether `os.Chmod` on this node fails. -/
def FSNode.chmodF : FSNode → Bool
  | .file c _ => c
  | .symlink => false
  | .dir c _ _ => c

/-- Whether `os.Remove` on this node (as a non-directory entry) fails. -/
def FSNode.removeF : FSNode → Bool
  | .file _ r => r
  | _ => false

/-- A filesystem mutation actually performed (a succeeding `os.Chmod` or
`os.Remove` call). -/
inductive FsOp : Type where
  | chmod (path : String) : FsOp
  | remove (path : String) : FsOp
deriving Repr, DecidableEq

/-- The state threaded through the traversal: the shared `Stats`, the shared
`ProgressReporter`, and the trace of filesystem mutations performed. -/
structure DState where
  stats : Stats
  progress : ProgressReporter
  ops : List FsOp
deriving Repr, DecidableEq

/-- The `d.stats.AddError(err)` call as used throughout the deleter. -/
def DState.addError (st : DState) (e : String) : DState :=
  { st with stats := st.stats.AddError e }

/-- Go `makeDeletable` (src/internal/deleter, validate/permissions file): dry run
returns nil immediately; otherwise `os.Chmod(path, 0700)`.  Returns the state
(with the chmod recorded when it was performed) and whether the call
succeeded. -/
def makeDeletable (opts : Options) (node : FSNode) (path : String) (st : DState) :
    DState × Bool :=
  if opts.DryRun then (st, true)
  else if node.chmodF then (st, false)
  else ({ st with ops := st.ops ++ [.chmod path] }, true)

/-- Go `processFile` (src/internal/deleter/concurrent.go lines 63-79).  Returns
the state and whether the entry was removed from the filesystem. -/
def processFile (opts : Options) (node : FSNode) (path : String) (st : DState) :
    DState × Bool :=
  if opts.DryRun then
    ({ st with stats := { st.stats with FilesDeleted := st.stats.FilesDeleted + 1 } }, false)
  else if node.chmodF then
    (st.addError ("chmod failed: " ++ path), false)
  else
    let st1 : DState := { st with ops := st.ops ++ [.chmod path] }
    if node.removeF then
      (st1.addError ("remove failed: " ++ path), false)
    else
      ({ st1 with
          stats := { st1.stats with FilesDeleted := st1.stats.FilesDeleted + 1 }
          ops := st1.ops ++ [.remove path] }, true)

mutual

/-- Go `deleteRecursive` (src/internal/deleter/concurrent.go lines 9-61), as the
sequential denotation of one subtree task: makeDeletable, ReadDir,
`progress.Total += len(entries)`, the entry loop, then (unless dry run)
`os.Remove(path)` — success iff the directory ended up empty — incrementing
`DirsDeleted` or appending an error.  Returns the state and the remaining
node (`none` = removed). -/
def deleteRec (opts : Options) (path : String) (node : FSNode) (st : DState) :
    DState × Option FSNode :=
  let m := makeDeletable opts node path st
  if !m.2 then (m.1.addError ("chmod failed: " ++ path), some node)
  else
    match node with
    | .file c r => (m.1.addError ("read dir failed: " ++ path), some (.file c r))
    | .symlink => (m.1.addError ("read dir failed: " ++ path), some .symlink)
    | .dir cf rf es =>
      if rf then (m.1.addError ("read dir failed: " ++ path), some (.dir cf rf es))
      else
        let st1 : DState :=
          { m.1 with progress :=
              { m.1.progress with Total := m.1.progress.Total + (es.length : Int) } }
        let r := deleteEntries opts path es st1
        if opts.DryRun then (r.1, some (.dir cf rf r.2))
        else if r.2.isNil then
          ({ r.1 with
              stats := { r.1.stats with DirsDeleted := r.1.stats.DirsDeleted + 1 }
              ops := r.1.ops ++ [.remove path] }, none)
        else (r.1.addError ("remove failed: " ++ path), some (.dir cf rf r.2))

/-- The entry loop of `deleteRecursive` (concurrent.go lines 27-50): skipped
symlinks are recorded and kept; directory entries recurse (spawned tasks
linearized in entry order); other entries go through `processFile` followed by
`progress.Update(1)`.  Returns the state and the entries still present. -/
def deleteEntries (opts : Options) (dirPath : String) (es : EntryList) (st : DState) :
    DState × EntryList :=
  match es with
  | .nil => (st, .nil)
  | .cons name node rest =>
    let fullPath : String := dirPath ++ "/" ++ name
    if node.isSymlink && opts.SkipSymlinks then
      let r := deleteEntries opts dirPath rest (st.addError ("skipped symlink: " ++ fullPath))
      (r.1, .cons name node r.2)
    else if node.isDir then
      let r1 := deleteRec opts fullPath node st
      let r2 := deleteEntries opts dirPath rest r1.1
      (r2.1,
        match r1.2 with
        | none => r2.2
        | some nd => .cons name nd r2.2)
    else
      let r1 := processFile opts node fullPath st
      let r2 := deleteEntries opts dirPath rest
        { r1.1 with progress := r1.1.progress.UpdateState 1 }
      (r2.1, if r1.2 then r2.2 else .cons name node r2.2)

end

/-- The environment a `Delete` call runs against: `resolve` stands for
`filepath.Abs` (total: `Abs` fails only when the working directory is
unobtainable) and `lookup` for `os.Stat`/the subtree rooted at a path
(`none` = the path does not exist). -/
structure Env where
  resolve : String → String
  lookup : String → Option FSNode

/-- The two root-validation errors of src/internal/deleter
(`ErrDangerousPath`, `ErrNotExist`). -/
inductive DErr : Type where
  | dangerousPath : DErr
  | notExist : DErr
deriving Repr, DecidableEq

/-- Go `deleter.Deleter` (src/internal/deleter/deleter.go lines 10-14): the
configuration and the `stats` aggregate created in `New`. -/
structure Deleter where
  config : Options
  stats : Stats
deriving Repr, DecidableEq

/-- Go `deleter.New` (deleter.go lines 16-26): fold the option combinators over
`DefaultOptions` and allocate the `Stats`. -/
def New (numCPU : Nat) (opts : List (Options → Options)) : Deleter :=
  { config := opts.foldl (fun c o => o c) (DefaultOptions numCPU)
    stats := DefaultStats }

/-- Go `validatePath` (src/internal/deleter, concurrent.go companion file lines
92-104): first the dangerous-path loop (string equality against the list, on
the path exactly as given), then `os.Stat`. -/
def Deleter.validatePath (d : Deleter) (env : Env) (path : String) : Option DErr :=
  if d.config.DangerousPaths.contains path then some .dangerousPath
  else if (env.lookup path).isNone then some .notExist
  else none

/-- Go `deleteRecursive` invoked on the resolved root.  When the resolved path
does not exist, `makeDeletable`'s chmod fails (or, in dry run, `os.ReadDir`
fails), producing a single error and touching nothing. -/
def deleteRoot (opts : Options) (path : String) (t : Option FSNode) (st : DState) :
    DState × Option FSNode :=
  match t with
  | none =>
    (st.addError ((if opts.DryRun then "read dir failed: " else "chmod failed: ") ++ path),
     none)
  | some node => deleteRec opts path node st

deriving instance DecidableEq for Except

/-- Everything observable about one `Delete` call: the Go return value
(`(*Stats, error)`), the receiver's state after the call, the post-state of
the subtree at the resolved root, and the filesystem mutations performed. -/
structure DeleteOutcome where
  result : Except DErr Stats
  deleter : Deleter
  tree : Option FSNode
  ops : List FsOp
  progress : ProgressReporter
deriving Repr, DecidableEq

/-- Go `Deleter.Delete` (deleter.go lines 28-48): validate the path as given,
then `filepath.Abs`, then run `deleteRecursive` on the resolved root under
the completion barrier, and return the accumulated `d.stats`. -/
def Deleter.Delete (d : Deleter) (env : Env) (path : String) : DeleteOutcome :=
  match d.validatePath env path with
  | some e =>
    { result := .error e
      deleter := d
      tree := env.lookup (env.resolve path)
      ops := []
      progress := NewProgressReporter 0 0 }
  | none =>
    let absPath : String := env.resolve path
    let st0 : DState :=
      { stats := d.stats, progress := NewProgressReporter 0 0, ops := [] }
    let r := deleteRoot d.config absPath (env.lookup absPath) st0
    { result := .ok r.1.stats
      deleter := { d with stats := r.1.stats }
      tree := r.2
      ops := r.1.ops
      progress := r.1.progress }

mutual

/-- Number of regular files in a subtree (the entries `processFile` deletes on
a clean tree).  A bare file node has no listed contents. -/
def FSNode.nFiles : FSNode → Int
  | .file _ _ => 0
  | .symlink => 0
  | .dir _ _ es => es.nFiles

/-- Files below an entry list; a file entry itself counts one. -/
def EntryList.nFiles : EntryList → Int
  | .nil => 0
  | .cons _ (.file _ _) rest => 1 + rest.nFiles
  | .cons _ .symlink rest => rest.nFiles
  | .cons _ (.dir _ _ es) rest => es.nFiles + rest.nFiles

end

mutual

/-- Number of directories in a subtree, the subtree root included. -/
def FSNode.nDirs : FSNode → Int
  | .file _ _ => 0
  | .symlink => 0
  | .dir _ _ es => 1 + es.nDirs

/-- Directories below an entry list. -/
def EntryList.nDirs : EntryList → Int
  | .nil => 0
  | .cons _ node rest => node.nDirs + rest.nDirs

end

mutual

/-- Total progress registered by a full traversal of a subtree: every listed
directory contributes its entry count. -/
def FSNode.nTot : FSNode → Int
  | .file _ _ => 0
  | .symlink => 0
  | .dir _ _ es => (es.length : Int) + es.nTot

/-- Same, summed over an entry list. -/
def EntryList.nTot : EntryList → Int
  | .nil => 0
  | .cons _ node rest => node.nTot + rest.nTot

end

mutual

/-- A clean subtree: no syscall-failure flags and no symlinks (no permission
errors anywhere, nothing skipped). -/
def FSNode.clean : FSNode → Bool
  | .file c r => !c && !r
  | .symlink => false
  | .dir c r es => !c && !r && es.clean

/-- Cleanliness of every node in an entry list. -/
def EntryList.clean : EntryList → Bool
  | .nil => true
  | .cons _ node rest => node.clean && rest.clean

end

/-- Number of entries of a listing that advance `Total` but never `Processed`:
directory entries, and symlink entries when `SkipSymlinks` is set (the
`progress.Update(1)` call sits only on the non-directory, non-skipped
branch). -/
def EntryList.gapEntries (opts : Options) : EntryList → Int
  | .nil => 0
  | .cons _ node rest =>
    (if node.isSymlink && opts.SkipSymlinks then 1
     else if node.isDir then 1 else 0) + rest.gapEntries opts

/-
The completion barrier of `deleteRecursive` (concurrent.go lines 25-52),
modelled directly.  Each call does `defer wg.Done()` on the WaitGroup its
caller passed in (line 11).  For each subdirectory entry the parent either
  * acquires a semaphore permit: `subWg.Add(1)` and spawn the child as a
    goroutine whose deferred `subWg.Done()` fires whenever it finishes
    (lines 36-42), or
  * finds the semaphore full: call `deleteRecursive(fullPath, &subWg, ...)`
    inline (line 44) — the synchronous call's deferred `subWg.Done()` fires at
    its return, and no `subWg.Add` ever matched it.
After the loop the parent blocks in `subWg.Wait()` (line 52) until the counter
is zero, then proceeds to remove the directory.
-/

/-- A `sync.WaitGroup` event: `Add(1)` or `Done()`. -/
inductive BEvent : Type where
  | add : BEvent
  | done : BEvent
deriving Repr, DecidableEq

/-- Go `sync.WaitGroup` counter semantics: `Done` on a non-positive counter
drives it negative, which panics (`none`). -/
def wgRun : Int → List BEvent → Option Int
  | c, [] => some c
  | c, .add :: tr => wgRun (c + 1) tr
  | c, .done :: tr => if c ≤ 0 then none else wgRun (c - 1) tr

/-- One step of the parent's dispatch loop, or the completion of a spawned
child.  State: the remaining per-subdirectory semaphore outcomes (`true` =
permit acquired, child spawned; `false` = semaphore full, child run inline)
and the number of spawned children still running. -/
inductive DispatchStep : List Bool × Nat → BEvent → List Bool × Nat → Prop where
  | spawn (cs : List Bool) (p : Nat) :
      DispatchStep (true :: cs, p) .add (cs, p + 1)
  | inline (cs : List Bool) (p : Nat) :
      DispatchStep (false :: cs, p) .done (cs, p)
  | spawnFinish (cs : List Bool) (p : Nat) :
      DispatchStep (cs, p + 1) .done (cs, p)

/-- A sequence of dispatch-loop steps with the `subWg` events it emits. -/
inductive DispatchTrace : List Bool × Nat → List BEvent → List Bool × Nat → Prop where
  | nil (s : List Bool × Nat) : DispatchTrace s [] s
  | cons {s s' s'' : List Bool × Nat} {e : BEvent} {tr : List BEvent} :
      DispatchStep s e s' → DispatchTrace s' tr s'' → DispatchTrace s (e :: tr) s''

/-- One statement of the engine that mutates the shared `Stats` or the shared
`ProgressReporter`, with whether the source statement runs while holding the
owning struct's mutex. -/
structure MutationSite where
  location : String
  underLock : Bool
deriving Repr, DecidableEq

/-- Every mutation of the shared `reporter.Stats` and
`reporter.ProgressReporter` in the sources.  `Stats.AddError` and
`ProgressReporter.Update` lock their receiver's `mu`; the three count
increments in the deleter and the `progress.Total` growth are plain
unsynchronized statements. -/
def sharedMutationSites : List MutationSite :=
  [ { location := "reporter Stats.AddError: s.Errors = append(s.Errors, err)", underLock := true }
  , { location := "reporter ProgressReporter.Update: p.Processed += count", underLock := true }
  , { location := "deleter deleteRecursive line 24: progress.Total += len(entries)", underLock := false }
  , { location := "deleter deleteRecursive line 58: d.stats.DirsDeleted++", underLock := false }
  , { location := "deleter processFile line 65 (dry run): d.stats.FilesDeleted++", underLock := false }
  , { location := "deleter processFile line 77: d.stats.FilesDeleted++", underLock := false } ]

/-- The `Stats` aggregate `b` extends `a`: counts no smaller and the error
list grown only by appending. -/
def StatsLE (a b : Stats) : Prop :=
  a.FilesDeleted ≤ b.FilesDeleted ∧ a.DirsDeleted ≤ b.DirsDeleted ∧
    ∃ l, b.Errors = a.Errors ++ l

/-- The state `st` after adding `df` to `FilesDeleted`, `dd` to `DirsDeleted`, `dt` to
`Total` and `dp` to `Processed`; errors and op trace untouched. -/
def DState.bump (st : DState) (df dd dt dp : Int) : DState :=
  { stats :=
      { FilesDeleted := st.stats.FilesDeleted + df
        DirsDeleted := st.stats.DirsDeleted + dd
        Errors := st.stats.Errors }
    progress :=
      { Total := st.progress.Total + dt
        Processed := st.progress.Processed + dp
        startTime := st.progress.startTime }
    ops := st.ops }

/- Concrete instances the claim checks evaluate the model on. -/

/-- A fresh traversal state. -/
def st0 : DState :=
  { stats := DefaultStats, progress := NewProgressReporter 0 0, ops := [] }

/-- A directory holding one healthy regular file. -/
def oneFileTree : FSNode := .dir false false (.cons "f" (.file false false) .nil)

/-- An environment with `oneFileTree` at path `t`. -/
def envOneFile : Env :=
  { resolve := fun s => s
    lookup := fun p => if p = "t" then some oneFileTree else none }

/-- An environment in which every path resolves to `/` — the behaviour of
`filepath.Abs` for the input `..` when the working directory is `/`
(`Clean("/" + "/..") = "/"`) — and `/` holds an empty, healthy directory. -/
def dotdotEnv : Env :=
  { resolve := fun _ => "/"
    lookup := fun _ => some (.dir false false .nil) }

/-- An environment with no filesystem at all. -/
def emptyEnv : Env :=
  { resolve := fun s => s, lookup := fun _ => none }

/-- A directory whose own chmod fails, holding one healthy regular file. -/
def chmodFailDir : FSNode := .dir true false (.cons "f" (.file false false) .nil)

/-- A directory whose own chmod fails, holding one empty subdirectory. -/
def chmodFailDirWithSub : FSNode := .dir true false (.cons "sub" (.dir false false .nil) .nil)

/-- An environment with `chmodFailDirWithSub` at path `t`. -/
def envChmodFailSub : Env :=
  { resolve := fun s => s
    lookup := fun p => if p = "t" then some chmodFailDirWithSub else none }

/-- A healthy directory holding one empty subdirectory. -/
def dirWithSub : FSNode := .dir false false (.cons "sub" (.dir false false .nil) .nil)

/-- An environment with `dirWithSub` at path `t`. -/
def envDirWithSub : Env :=
  { resolve := fun s => s
    lookup := fun p => if p = "t" then some dirWithSub else none }

/- ## Small facts about the primitive operations -/

theorem update_state_eq (p : ProgressReporter) (count : Int) (now : ℚ) :
    (p.Update count now).state = p.UpdateState count := rfl

theorem makeDeletable_stats (opts : Options) (node : FSNode) (path : String) (st : DState) :
    (makeDeletable opts node path st).1.stats = st.stats := by
  unfold makeDeletable; split
  · rfl
  · split <;> rfl

theorem makeDeletable_progress (opts : Options) (node : FSNode) (path : String) (st : DState) :
    (makeDeletable opts node path st).1.progress = st.progress := by
  unfold makeDeletable; split
  · rfl
  · split <;> rfl

theorem processFile_progress (opts : Options) (node : FSNode) (path : String) (st : DState) :
    (processFile opts node path st).1.progress = st.progress := by
  unfold processFile; split
  · rfl
  · split
    · rfl
    · split <;> rfl

/- ## Root validation and the shape of a failed Delete -/

theorem Delete_dangerous (d : Deleter) (env : Env) (path : String)
    (h : path ∈ d.config.DangerousPaths) :
    d.Delete env path =
      { result := .error .dangerousPath, deleter := d,
        tree := env.lookup (env.resolve path), ops := [],
        progress := NewProgressReporter 0 0 } := by
  unfold Deleter.Delete Deleter.validatePath
  simp [h]

theorem Delete_notExist (d : Deleter) (env : Env) (path : String)
    (h1 : path ∉ d.config.DangerousPaths) (h2 : env.lookup path = none) :
    d.Delete env path =
      { result := .error .notExist, deleter := d,
        tree := env.lookup (env.resolve path), ops := [],
        progress := NewProgressReporter 0 0 } := by
  unfold Deleter.Delete Deleter.validatePath
  simp [h1, h2]

theorem Delete_result_ok (d : Deleter) (env : Env) (path : String)
    (h1 : path ∉ d.config.DangerousPaths) (h2 : ¬ env.lookup path = none) :
    (d.Delete env path).result =
      .ok (deleteRoot d.config (env.resolve path) (env.lookup (env.resolve path))
            { stats := d.stats, progress := NewProgressReporter 0 0, ops := [] }).1.stats := by
  unfold Deleter.Delete Deleter.validatePath
  simp [h1, h2]

/- ## C1 -/

/-- C1: FALSE of the code.  The claim says the inline fallback (semaphore
full) never stalls, aborts, or crashes the call and never unbalances the
`subWg` completion barrier.  But the inline branch (concurrent.go line 44)
calls `deleteRecursive(fullPath, &subWg, ...)` without a matching
`subWg.Add(1)` (only the spawn branch, line 38, calls `Add`), while every
`deleteRecursive` invocation runs `defer wg.Done()`.  With dispatch outcomes
`[spawn, inline]` — one subdirectory spawned holding the last permit, the
next run inline — the event order (Add; the inline call's unmatched Done; the
spawned child's Done) drives the WaitGroup counter negative: Go panics with
"sync: negative WaitGroup counter" and the whole Delete call crashes. -/
theorem inline_fallback_panics_barrier :
    ∃ tr : List BEvent, ∃ p : Nat,
      DispatchTrace ([true, false], 0) tr ([], p) ∧ wgRun 0 tr = none := by
  refine ⟨[.add, .done, .done], 0, ?_, by decide⟩
  exact .cons (.spawn _ _) (.cons (.inline _ _) (.cons (.spawnFinish _ _) (.nil _)))

/- ## C7 -/

/-- C7: FALSE of the code.  The claim says a directory's removal is attempted
only after every child task dispatched from it (spawned or inline) has
finished.  With dispatch outcomes `[spawn, inline]`, the inline child's
unmatched deferred `Done` brings the `subWg` counter to zero (wgRun ends at 0)
while the spawned child is still running (pending count 1): `subWg.Wait()`
(line 52) returns and `os.Remove(path)` (line 55) proceeds with a
descendant's removal still outstanding. -/
theorem wait_returns_with_spawned_child_pending :
    ∃ tr : List BEvent,
      DispatchTrace ([true, false], 0) tr ([], 1) ∧ wgRun 0 tr = some 0 := by
  refine ⟨[.add, .done], ?_, by decide⟩
  exact .cons (.spawn _ _) (.cons (.inline _ _) (.nil _))

/- ## C2 -/

/-- C2: FALSE of the code.  The claim says every mutation of the shared
`Stats` aggregate and of the progress state is serialized through the
respective lock.  Only `Stats.AddError` and `ProgressReporter.Update` lock
their receiver's mutex; the `FilesDeleted++` and `DirsDeleted++` increments
and the `progress.Total += len(entries)` growth are plain unsynchronized
statements — a data race under concurrent tasks, so increments can be
lost. -/
theorem shared_mutation_without_lock :
    ∃ s ∈ sharedMutationSites, s.underLock = false := by decide

/- ## C8 -/

/-- C8: FALSE of the code.  The claim says `Update` reports rate and eta as
undefined instead of dividing by zero.  The code divides unconditionally
(part_003 lines 28-29): on an update at elapsed time zero the rate is
computed as `Processed / 0` (`none` = a zero-divisor IEEE division), and with
a zero rate the eta is computed as `(Total - Processed) / 0`; there is no
guard or special case for the first update. -/
theorem update_divides_by_zero :
    ((NewProgressReporter 0 0).Update 1 0).rate = none ∧
    ((NewProgressReporter 5 0).Update 0 1).eta = none := by
  constructor <;> simp [ProgressReporter.Update, NewProgressReporter, fdiv]

/- ## C4 -/

/-- C4 counterexample: `Delete` compares the *raw* input path against the
dangerous list before resolving it (deleter.go lines 29-36 run validatePath
first, `filepath.Abs` after).  With working directory `/`, the input `..`
resolves to `/` — a configured dangerous path — yet validation passes and the
call removes the tree at `/` (result is ok, the tree is gone). -/
theorem dangerous_path_missed_after_resolution :
    (New 1 []).config.DangerousPaths.contains (dotdotEnv.resolve "..") = true ∧
    ((New 1 []).Delete dotdotEnv "..").result =
      .ok { FilesDeleted := 0, DirsDeleted := 1, Errors := [] } ∧
    ((New 1 []).Delete dotdotEnv "..").tree = none := by decide

/-- C4 amended: validation happens before resolution and compares only the
path exactly as given, so `Delete` fails with `DangerousPath` precisely when
the unresolved input string is in the configured list; a relative or
unnormalized path that only resolves to a dangerous path is not rejected. -/
theorem dangerous_check_uses_unresolved_path (d : Deleter) (env : Env) (path : String) :
    ((d.Delete env path).result = .error .dangerousPath ↔ path ∈ d.config.DangerousPaths) := by
  by_cases hc : path ∈ d.config.DangerousPaths
  · simp [Delete_dangerous d env path hc, hc]
  · simp only [hc, iff_false]
    by_cases hl : env.lookup path = none
    · rw [Delete_notExist d env path hc hl]
      simp
    · rw [Delete_result_ok d env path hc hl]
      simp

/- ## C5 -/

/-- C5 counterexample: a directory whose own chmod fails, holding one healthy
file.  The claim says the failure is soft: entries still listed and
processed, removal still attempted.  In fact `deleteRecursive` returns
immediately after recording the error (concurrent.go lines 13-16): the file
is not deleted (`FilesDeleted = 0`), nothing is listed, no removal is
attempted (`ops = []`), the subtree is untouched. -/
theorem chmod_failure_subtree_untouched :
    deleteRec (DefaultOptions 1) "/t" chmodFailDir st0 =
      ({ st0 with stats := { DefaultStats with Errors := ["chmod failed: /t"] } },
       some chmodFailDir) ∧
    (deleteRec (DefaultOptions 1) "/t" chmodFailDir st0).1.stats.FilesDeleted = 0 ∧
    (deleteRec (DefaultOptions 1) "/t" chmodFailDir st0).1.ops = [] := ⟨rfl, rfl, rfl⟩

/-- C5 amended: when setting a directory writable fails (outside dry run),
the error is recorded and processing of that directory stops — its entries
are not listed or processed and its removal is not attempted; the state is
unchanged except for the single appended error. -/
theorem chmod_failure_aborts_directory (opts : Options) (path : String)
    (rf : Bool) (es : EntryList) (st : DState) (h : opts.DryRun = false) :
    deleteRec opts path (.dir true rf es) st =
      (st.addError ("chmod failed: " ++ path), some (.dir true rf es)) := by
  unfold deleteRec makeDeletable
  simp [h, FSNode.chmodF]

theorem chmod_failure_aborts_directory_witness :
    deleteRec (DefaultOptions 1) "/t" (.dir true false (.cons "f" (.file false false) .nil)) st0 =
      (st0.addError ("chmod failed: " ++ "/t"),
       some (.dir true false (.cons "f" (.file false false) .nil))) :=
  chmod_failure_aborts_directory (DefaultOptions 1) "/t" false
    (.cons "f" (.file false false) .nil) st0 rfl

/- ## C6 -/

/-- C6: for every input on which root validation fails — a configured
dangerous path (checked first, regardless of any other setting including
dry run), or a path that does not exist — `Delete` returns the corresponding
error immediately: no `Stats` value is produced (the result is the error, the
receiver's stats are untouched), no filesystem mutation has occurred (empty
op trace, tree unchanged). -/
theorem root_validation_failure_no_mutation (d : Deleter) (env : Env) (path : String) :
    (path ∈ d.config.DangerousPaths →
      d.Delete env path =
        { result := .error .dangerousPath, deleter := d,
          tree := env.lookup (env.resolve path), ops := [],
          progress := NewProgressReporter 0 0 }) ∧
    (path ∉ d.config.DangerousPaths → env.lookup path = none →
      d.Delete env path =
        { result := .error .notExist, deleter := d,
          tree := env.lookup (env.resolve path), ops := [],
          progress := NewProgressReporter 0 0 }) :=
  ⟨fun h => Delete_dangerous d env path h, fun h1 h2 => Delete_notExist d env path h1 h2⟩

theorem root_validation_failure_no_mutation_witness :
    (New 1 []).Delete emptyEnv "/" =
      { result := .error .dangerousPath, deleter := New 1 [],
        tree := none, ops := [], progress := NewProgressReporter 0 0 } ∧
    (New 1 []).Delete emptyEnv "/nonexistent/path" =
      { result := .error .notExist, deleter := New 1 [],
        tree := none, ops := [], progress := NewProgressReporter 0 0 } :=
  ⟨(root_validation_failure_no_mutation (New 1 []) emptyEnv "/").1 (by decide),
   (root_validation_failure_no_mutation (New 1 []) emptyEnv "/nonexistent/path").2
     (by decide) rfl⟩

/- ## C9 counterexample -/

/-- C9 counterexample: `Stats` is allocated once in `New` (deleter.go line
24), not per `Delete` invocation.  Two successive dry-run `Delete` calls on
the same `Deleter` over a one-file tree: the first returns
`FilesDeleted = 1`, the second returns `FilesDeleted = 2` — it accumulates
the first call's count instead of reflecting only its own work. -/
theorem second_delete_accumulates_stats :
    ((New 1 [WithDryRun true]).Delete envOneFile "t").result =
      .ok { FilesDeleted := 1, DirsDeleted := 0, Errors := [] } ∧
    (((New 1 [WithDryRun true]).Delete envOneFile "t").deleter.Delete envOneFile "t").result =
      .ok { FilesDeleted := 2, DirsDeleted := 0, Errors := [] } := ⟨rfl, rfl⟩

/- ## C10 counterexample -/

/-- C10 counterexample: a tree containing a subdirectory on which the claimed
final strict inequality `processed < total` fails: the root's own chmod
fails (outside dry run), so the root is never listed, `Total` and `Processed`
both end at `0`, and the reported progress is not short of 100%. -/
theorem progress_stuck_on_unlistable_root :
    EntryList.gapEntries (DefaultOptions 1) (.cons "sub" (.dir false false .nil) .nil) = 1 ∧
    ((New 1 []).Delete envChmodFailSub "t").progress.Processed =
      ((New 1 []).Delete envChmodFailSub "t").progress.Total := ⟨rfl, rfl⟩

/- ## C3 counterexample -/

/-- C3 counterexample: the dry-run branch of `deleteRecursive` (line 54)
skips the whole removal block *including* the `DirsDeleted++`: on a clean
one-file tree a dry run returns `dirsDeleted = 0` while the real run returns
`dirsDeleted = 1`, so the claimed equality of both counts (and in particular
that dry-run `dirsDeleted` counts every directory) is false. -/
theorem dry_run_dirs_not_counted :
    ((New 1 [WithDryRun true]).Delete envOneFile "t").result =
      .ok { FilesDeleted := 1, DirsDeleted := 0, Errors := [] } ∧
    ((New 1 []).Delete envOneFile "t").result =
      .ok { FilesDeleted := 1, DirsDeleted := 1, Errors := [] } := ⟨rfl, rfl⟩

/- ## Helper lemmas for the inductive claims -/



theorem statsLE_refl (s : Stats) : StatsLE s s := ⟨le_refl _, le_refl _, [], by simp⟩

theorem statsLE_trans {a b c : Stats} (h1 : StatsLE a b) (h2 : StatsLE b c) : StatsLE a c := by
  obtain ⟨f1, d1, l1, e1⟩ := h1
  obtain ⟨f2, d2, l2, e2⟩ := h2
  exact ⟨le_trans f1 f2, le_trans d1 d2, l1 ++ l2, by rw [e2, e1, List.append_assoc]⟩

theorem statsLE_addError (s : Stats) (e : String) : StatsLE s (s.AddError e) :=
  ⟨le_refl _, le_refl _, [e], rfl⟩

theorem statsLE_addError_state (st : DState) (e : String) :
    StatsLE st.stats (st.addError e).stats := statsLE_addError _ _

theorem statsLE_incrDirs (s : Stats) :
    StatsLE s { s with DirsDeleted := s.DirsDeleted + 1 } :=
  ⟨le_refl _, by dsimp only; omega, [], by simp⟩

theorem statsLE_incrFiles (s : Stats) :
    StatsLE s { s with FilesDeleted := s.FilesDeleted + 1 } :=
  ⟨by dsimp only; omega, le_refl _, [], by simp⟩

theorem statsLE_processFile (opts : Options) (node : FSNode) (path : String) (st : DState) :
    StatsLE st.stats (processFile opts node path st).1.stats := by
  unfold processFile
  dsimp only
  split
  · exact statsLE_incrFiles _
  · split
    · exact statsLE_addError_state _ _
    · split
      · exact statsLE_addError _ _
      · exact statsLE_incrFiles _

mutual

theorem statsLE_deleteRec (opts : Options) (path : String) (t : FSNode) (st : DState) :
    StatsLE st.stats (deleteRec opts path t st).1.stats := by
  have hms := makeDeletable_stats opts t path st
  unfold deleteRec
  dsimp only
  split
  · rw [← hms]; exact statsLE_addError_state _ _
  · match t with
    | .file c r => rw [← hms]; exact statsLE_addError_state _ _
    | .symlink => rw [← hms]; exact statsLE_addError_state _ _
    | .dir cf rf es =>
      dsimp only
      split
      · rw [← hms]; exact statsLE_addError_state _ _
      · have hrec := statsLE_deleteEntries opts path es
          { makeDeletable opts (FSNode.dir cf rf es) path st |>.1 with
            progress :=
              { (makeDeletable opts (FSNode.dir cf rf es) path st).1.progress with
                Total := (makeDeletable opts (FSNode.dir cf rf es) path st).1.progress.Total
                  + (es.length : Int) } }
        rw [show ({ makeDeletable opts (FSNode.dir cf rf es) path st |>.1 with
            progress :=
              { (makeDeletable opts (FSNode.dir cf rf es) path st).1.progress with
                Total := (makeDeletable opts (FSNode.dir cf rf es) path st).1.progress.Total
                  + (es.length : Int) } } : DState).stats
            = (makeDeletable opts (FSNode.dir cf rf es) path st).1.stats from rfl, hms] at hrec
        split
        · exact hrec
        · split
          · exact statsLE_trans hrec (statsLE_incrDirs _)
          · exact statsLE_trans hrec (statsLE_addError_state _ _)

theorem statsLE_deleteEntries (opts : Options) (dp : String) (es : EntryList) (st : DState) :
    StatsLE st.stats (deleteEntries opts dp es st).1.stats := by
  match es with
  | .nil => unfold deleteEntries; exact statsLE_refl _
  | .cons name node rest =>
    unfold deleteEntries
    dsimp only
    split
    · exact statsLE_trans (statsLE_addError_state st _)
        (statsLE_deleteEntries opts dp rest (st.addError ("skipped symlink: " ++ (dp ++ "/" ++ name))))
    · split
      · exact statsLE_trans (statsLE_deleteRec opts (dp ++ "/" ++ name) node st)
          (statsLE_deleteEntries opts dp rest (deleteRec opts (dp ++ "/" ++ name) node st).1)
      · exact statsLE_trans (statsLE_processFile opts node (dp ++ "/" ++ name) st)
          (statsLE_deleteEntries opts dp rest
            { (processFile opts node (dp ++ "/" ++ name) st).1 with
              progress := (processFile opts node (dp ++ "/" ++ name) st).1.progress.UpdateState 1 })

end



theorem statsLE_deleteRoot (opts : Options) (path : String) (t : Option FSNode) (st : DState) :
    StatsLE st.stats (deleteRoot opts path t st).1.stats := by
  cases t with
  | none => unfold deleteRoot; exact statsLE_addError_state _ _
  | some node => unfold deleteRoot; exact statsLE_deleteRec opts path node st

theorem Delete_ok_fields (d : Deleter) (env : Env) (path : String)
    (hv : d.validatePath env path = none) :
    (d.Delete env path).result =
      .ok (deleteRoot d.config (env.resolve path) (env.lookup (env.resolve path))
        { stats := d.stats, progress := NewProgressReporter 0 0, ops := [] }).1.stats ∧
    (d.Delete env path).deleter.stats =
      (deleteRoot d.config (env.resolve path) (env.lookup (env.resolve path))
        { stats := d.stats, progress := NewProgressReporter 0 0, ops := [] }).1.stats := by
  unfold Deleter.Delete
  rw [hv]
  exact ⟨rfl, rfl⟩

theorem Delete_err_result (d : Deleter) (env : Env) (path : String) (e : DErr)
    (hv : d.validatePath env path = some e) :
    (d.Delete env path).result = .error e := by
  unfold Deleter.Delete
  rw [hv]

/- ## C9 amended -/

/-- C9 amended: `Stats` lives in the `Deleter` (allocated once in `New`), and a
successful `Delete` returns exactly that accumulated aggregate: the returned
stats equal the receiver's post-call stats field, the counts are no smaller
than before the call, and the pre-existing error list is a prefix of the
returned one — successive calls accumulate instead of starting fresh. -/
theorem delete_returns_accumulated_deleter_stats (d : Deleter) (env : Env) (path : String)
    (s : Stats) (h : (d.Delete env path).result = .ok s) :
    (d.Delete env path).deleter.stats = s ∧ StatsLE d.stats s := by
  rcases hv : d.validatePath env path with _ | e
  · obtain ⟨hres, hdel⟩ := Delete_ok_fields d env path hv
    rw [hres] at h
    have hs : (deleteRoot d.config (env.resolve path) (env.lookup (env.resolve path))
        { stats := d.stats, progress := NewProgressReporter 0 0, ops := [] }).1.stats = s := by
      simpa using h
    refine ⟨by rw [hdel, hs], ?_⟩
    rw [← hs]
    exact statsLE_deleteRoot _ _ _ _
  · rw [Delete_err_result d env path e hv] at h
    exact absurd h (by simp)

theorem delete_returns_accumulated_deleter_stats_witness :
    ((New 1 []).Delete envOneFile "t").result =
      .ok { FilesDeleted := 1, DirsDeleted := 1, Errors := [] } ∧
    (((New 1 []).Delete envOneFile "t").deleter.stats =
        { FilesDeleted := 1, DirsDeleted := 1, Errors := [] } ∧
      StatsLE (New 1 []).stats { FilesDeleted := 1, DirsDeleted := 1, Errors := [] }) :=
  ⟨rfl, delete_returns_accumulated_deleter_stats (New 1 []) envOneFile "t" _ rfl⟩



theorem makeDeletable_dry (opts : Options) (node : FSNode) (path : String) (st : DState)
    (h : opts.DryRun = true) : makeDeletable opts node path st = (st, true) := by
  unfold makeDeletable
  rw [h]
  rfl

theorem processFile_dry (opts : Options) (node : FSNode) (path : String) (st : DState)
    (h : opts.DryRun = true) :
    processFile opts node path st =
      ({ st with stats := { st.stats with FilesDeleted := st.stats.FilesDeleted + 1 } },
       false) := by
  unfold processFile
  rw [h]
  rfl

mutual

theorem dry_deleteRec (opts : Options) (path : String)
    (cf rf : Bool) (es : EntryList) (st : DState)
    (hdry : opts.DryRun = true) (hc : (FSNode.dir cf rf es).clean = true) :
    deleteRec opts path (.dir cf rf es) st =
      (st.bump es.nFiles 0 ((es.length : Int) + es.nTot) es.nFiles, some (.dir cf rf es)) := by
  have hc' : rf = false ∧ es.clean = true := by
    unfold FSNode.clean at hc
    constructor
    · rcases rf <;> simp_all
    · simp_all
  unfold deleteRec
  rw [makeDeletable_dry opts _ path st hdry]
  dsimp only
  rw [hc'.1, if_neg (by simp)]
  rw [dry_deleteEntries opts path es _ hdry hc'.2]
  rw [hdry]
  dsimp only [DState.bump, EntryList.nFiles, EntryList.nTot]
  simp [add_assoc]

theorem dry_deleteEntries (opts : Options) (dp : String) (es : EntryList) (st : DState)
    (hdry : opts.DryRun = true) (hc : es.clean = true) :
    deleteEntries opts dp es st = (st.bump es.nFiles 0 es.nTot es.nFiles, es) := by
  match es with
  | .nil =>
    unfold deleteEntries
    dsimp only [DState.bump, EntryList.nFiles, EntryList.nTot]
    simp
  | .cons name node rest =>
    have hcn : node.clean = true ∧ rest.clean = true := by
      unfold EntryList.clean at hc
      simp_all
    unfold deleteEntries
    dsimp only
    match node, hcn.1 with
    | .file c r, hnode =>
      have hcr : c = false ∧ r = false := by
        unfold FSNode.clean at hnode
        rcases c <;> rcases r <;> simp_all
      simp only [FSNode.isSymlink, FSNode.isDir, Bool.false_and, Bool.false_eq_true,
        if_false]
      rw [processFile_dry opts _ _ st hdry]
      dsimp only
      rw [dry_deleteEntries opts dp rest _ hdry hcn.2]
      dsimp only [DState.bump, EntryList.nFiles, EntryList.nTot, ProgressReporter.UpdateState,
        FSNode.nFiles, FSNode.nTot]
      simp only [Prod.mk.injEq, DState.mk.injEq, Stats.mk.injEq, ProgressReporter.mk.injEq,
        and_true, true_and]
      repeat' apply And.intro
      all_goals first | omega | simp
    | .dir dcf drf des, hnode =>
      simp only [FSNode.isSymlink, FSNode.isDir, Bool.false_and, Bool.false_eq_true,
        if_false, if_true]
      rw [dry_deleteRec opts (dp ++ "/" ++ name) dcf drf des st hdry hnode]
      dsimp only
      rw [dry_deleteEntries opts dp rest _ hdry hcn.2]
      dsimp only [DState.bump, EntryList.nFiles, EntryList.nTot, FSNode.nFiles, FSNode.nTot]
      simp only [Prod.mk.injEq, DState.mk.injEq, Stats.mk.injEq, ProgressReporter.mk.injEq,
        and_true, true_and]
      repeat' apply And.intro
      all_goals omega

end



theorem makeDeletable_wet_ok (opts : Options) (node : FSNode) (path : String) (st : DState)
    (hwet : opts.DryRun = false) (hcf : node.chmodF = false) :
    makeDeletable opts node path st = ({ st with ops := st.ops ++ [.chmod path] }, true) := by
  unfold makeDeletable
  rw [hwet, hcf]
  rfl

theorem processFile_wet (opts : Options) (path : String) (st : DState)
    (hwet : opts.DryRun = false) :
    processFile opts (.file false false) path st =
      ({ st with
          stats := { st.stats with FilesDeleted := st.stats.FilesDeleted + 1 }
          ops := st.ops ++ [.chmod path, .remove path] }, true) := by
  unfold processFile
  rw [hwet]
  dsimp only [FSNode.chmodF, FSNode.removeF]
  simp

mutual

theorem wet_deleteRec (opts : Options) (path : String)
    (cf rf : Bool) (es : EntryList) (st : DState)
    (hwet : opts.DryRun = false) (hc : (FSNode.dir cf rf es).clean = true) :
    ∃ l, deleteRec opts path (.dir cf rf es) st =
      ({ st.bump es.nFiles (1 + es.nDirs) ((es.length : Int) + es.nTot) es.nFiles with
          ops := st.ops ++ l }, none) := by
  have hcf : cf = false ∧ rf = false ∧ es.clean = true := by
    unfold FSNode.clean at hc
    rcases cf <;> rcases rf <;> simp_all
  obtain ⟨hcf1, hcf2, hces⟩ := hcf
  subst hcf1
  subst hcf2
  unfold deleteRec
  rw [makeDeletable_wet_ok opts (.dir false false es) path st hwet rfl]
  dsimp only
  rw [if_neg (by simp)]
  obtain ⟨l1, h1⟩ := wet_deleteEntries opts path es
    { ({ st with ops := st.ops ++ [.chmod path] } : DState) with
      progress :=
        { ({ st with ops := st.ops ++ [.chmod path] } : DState).progress with
          Total := ({ st with ops := st.ops ++ [.chmod path] } : DState).progress.Total
            + (es.length : Int) } } hwet hces
  rw [h1]
  rw [hwet]
  dsimp only [DState.bump, EntryList.isNil]
  simp only [Bool.false_eq_true, if_false, if_true]
  refine ⟨.chmod path :: (l1 ++ [.remove path]), ?_⟩
  simp only [Prod.mk.injEq, DState.mk.injEq, Stats.mk.injEq, ProgressReporter.mk.injEq,
    and_true, true_and]
  repeat' apply And.intro
  all_goals first | omega | simp

theorem wet_deleteEntries (opts : Options) (dp : String) (es : EntryList) (st : DState)
    (hwet : opts.DryRun = false) (hc : es.clean = true) :
    ∃ l, deleteEntries opts dp es st =
      ({ st.bump es.nFiles es.nDirs es.nTot es.nFiles with ops := st.ops ++ l }, .nil) := by
  match es with
  | .nil =>
    refine ⟨[], ?_⟩
    unfold deleteEntries
    dsimp only [DState.bump, EntryList.nFiles, EntryList.nDirs, EntryList.nTot]
    simp
  | .cons name node rest =>
    have hcn : node.clean = true ∧ rest.clean = true := by
      unfold EntryList.clean at hc
      simp_all
    unfold deleteEntries
    dsimp only
    match node, hcn.1 with
    | .file c r, hnode =>
      have hcr : c = false ∧ r = false := by
        unfold FSNode.clean at hnode
        rcases c <;> rcases r <;> simp_all
      obtain ⟨hc1, hc2⟩ := hcr
      subst hc1
      subst hc2
      simp only [FSNode.isSymlink, FSNode.isDir, Bool.false_and, Bool.false_eq_true,
        if_false]
      obtain ⟨l1, h1⟩ := wet_deleteEntries opts dp rest
        { (processFile opts (.file false false) (dp ++ "/" ++ name) st).1 with
          progress :=
            (processFile opts (.file false false) (dp ++ "/" ++ name) st).1.progress.UpdateState 1 }
        hwet hcn.2
      rw [h1]
      rw [processFile_wet opts (dp ++ "/" ++ name) st hwet]
      dsimp only [DState.bump, ProgressReporter.UpdateState, EntryList.nFiles,
        EntryList.nDirs, EntryList.nTot, FSNode.nFiles, FSNode.nDirs, FSNode.nTot]
      refine ⟨.chmod (dp ++ "/" ++ name) :: .remove (dp ++ "/" ++ name) :: l1, ?_⟩
      simp only [Prod.mk.injEq, DState.mk.injEq, Stats.mk.injEq, ProgressReporter.mk.injEq,
        and_true, true_and, if_true]
      repeat' apply And.intro
      all_goals first | omega | simp
    | .dir dcf drf des, hnode =>
      simp only [FSNode.isSymlink, FSNode.isDir, Bool.false_and, Bool.false_eq_true,
        if_false, if_true]
      obtain ⟨l1, h1⟩ := wet_deleteRec opts (dp ++ "/" ++ name) dcf drf des st hwet hnode
      rw [h1]
      dsimp only
      obtain ⟨l2, h2⟩ := wet_deleteEntries opts dp rest
        { st.bump des.nFiles (1 + des.nDirs) ((des.length : Int) + des.nTot) des.nFiles with
          ops := st.ops ++ l1 } hwet hcn.2
      rw [h2]
      dsimp only [DState.bump, EntryList.nFiles, EntryList.nDirs, EntryList.nTot,
        FSNode.nFiles, FSNode.nDirs, FSNode.nTot]
      refine ⟨l1 ++ l2, ?_⟩
      simp only [Prod.mk.injEq, DState.mk.injEq, Stats.mk.injEq, ProgressReporter.mk.injEq,
        and_true, true_and]
      repeat' apply And.intro
      all_goals first | omega | simp

end



theorem addError_progress (st : DState) (e : String) :
    (st.addError e).progress = st.progress := rfl

/- ## C3 amended -/

/-- C3 amended: on a clean directory tree (no permission failures, no
symlinks) a dry run performs no filesystem mutation (no chmod, no remove, op
trace unchanged, tree returned intact) and its `filesDeleted` matches the real
run's; but `dirsDeleted` stays untouched in dry-run mode while the real run
adds one per directory (subtree root included) and removes the tree. -/
theorem dry_vs_wet_counts (opts : Options) (path : String)
    (cf rf : Bool) (es : EntryList) (st : DState)
    (hc : (FSNode.dir cf rf es).clean = true) :
    (deleteRec { opts with DryRun := true } path (.dir cf rf es) st).1.stats.FilesDeleted
        = st.stats.FilesDeleted + es.nFiles ∧
    (deleteRec { opts with DryRun := false } path (.dir cf rf es) st).1.stats.FilesDeleted
        = st.stats.FilesDeleted + es.nFiles ∧
    (deleteRec { opts with DryRun := true } path (.dir cf rf es) st).1.stats.DirsDeleted
        = st.stats.DirsDeleted ∧
    (deleteRec { opts with DryRun := false } path (.dir cf rf es) st).1.stats.DirsDeleted
        = st.stats.DirsDeleted + (1 + es.nDirs) ∧
    (deleteRec { opts with DryRun := true } path (.dir cf rf es) st).1.ops = st.ops ∧
    (deleteRec { opts with DryRun := true } path (.dir cf rf es) st).2 = some (.dir cf rf es) ∧
    (deleteRec { opts with DryRun := false } path (.dir cf rf es) st).2 = none := by
  have hd := dry_deleteRec { opts with DryRun := true } path cf rf es st rfl hc
  obtain ⟨l, hw⟩ := wet_deleteRec { opts with DryRun := false } path cf rf es st rfl hc
  rw [hd, hw]
  dsimp only [DState.bump]
  refine ⟨rfl, rfl, by omega, rfl, rfl, rfl, rfl⟩

theorem gapEntries_nonneg (opts : Options) : ∀ es : EntryList, 0 ≤ es.gapEntries opts
  | .nil => by unfold EntryList.gapEntries; omega
  | .cons name node rest => by
    have ih := gapEntries_nonneg opts rest
    unfold EntryList.gapEntries
    split
    · omega
    · split <;> omega

mutual

theorem gap_deleteRec (opts : Options) (path : String) (t : FSNode) (st : DState) :
    st.progress.Total - st.progress.Processed ≤
      (deleteRec opts path t st).1.progress.Total -
        (deleteRec opts path t st).1.progress.Processed := by
  have hmp := makeDeletable_progress opts t path st
  unfold deleteRec
  dsimp only
  split
  · rw [addError_progress, hmp]
  · match t with
    | .file c r => rw [addError_progress, makeDeletable_progress]
    | .symlink => rw [addError_progress, makeDeletable_progress]
    | .dir cf rf es =>
      dsimp only
      split
      · rw [addError_progress, makeDeletable_progress]
      · have hge := gap_deleteEntries opts path es
          { (makeDeletable opts (FSNode.dir cf rf es) path st).1 with
            progress :=
              { (makeDeletable opts (FSNode.dir cf rf es) path st).1.progress with
                Total := (makeDeletable opts (FSNode.dir cf rf es) path st).1.progress.Total
                  + (es.length : Int) } }
        have hnn := gapEntries_nonneg opts es
        have hT := congrArg ProgressReporter.Total hmp
        have hP := congrArg ProgressReporter.Processed hmp
        dsimp only at hge hT hP
        split
        · dsimp only
          omega
        · split
          · dsimp only
            omega
          · rw [addError_progress]
            omega

theorem gap_deleteEntries (opts : Options) (dp : String) (es : EntryList) (st : DState) :
    st.progress.Total - st.progress.Processed - ((es.length : Int) - es.gapEntries opts) ≤
      (deleteEntries opts dp es st).1.progress.Total -
        (deleteEntries opts dp es st).1.progress.Processed := by
  match es with
  | .nil =>
    unfold deleteEntries EntryList.length EntryList.gapEntries
    dsimp only
    omega
  | .cons name node rest =>
    have hgap1 : (EntryList.cons name node rest).length = 1 + rest.length := by
      conv_lhs => unfold EntryList.length
    unfold deleteEntries
    dsimp only
    split
    · rename_i hsym
      have hgap2 : (EntryList.cons name node rest).gapEntries opts = 1 + rest.gapEntries opts := by
        conv_lhs => unfold EntryList.gapEntries
        rw [if_pos hsym]
      have ih := gap_deleteEntries opts dp rest
        (st.addError ("skipped symlink: " ++ (dp ++ "/" ++ name)))
      dsimp only [DState.addError] at ih ⊢
      omega
    · rename_i hsym
      split
      · rename_i hdir
        have hgap2 : (EntryList.cons name node rest).gapEntries opts = 1 + rest.gapEntries opts := by
          conv_lhs => unfold EntryList.gapEntries
          rw [if_neg hsym, if_pos hdir]
        have h1 := gap_deleteRec opts (dp ++ "/" ++ name) node st
        have ih := gap_deleteEntries opts dp rest (deleteRec opts (dp ++ "/" ++ name) node st).1
        dsimp only
        omega
      · rename_i hdir
        have hgap2 : (EntryList.cons name node rest).gapEntries opts = 0 + rest.gapEntries opts := by
          conv_lhs => unfold EntryList.gapEntries
          rw [if_neg hsym, if_neg hdir]
        have hpp := processFile_progress opts node (dp ++ "/" ++ name) st
        have hT := congrArg ProgressReporter.Total hpp
        have hP := congrArg ProgressReporter.Processed hpp
        have ih := gap_deleteEntries opts dp rest
          { (processFile opts node (dp ++ "/" ++ name) st).1 with
            progress :=
              (processFile opts node (dp ++ "/" ++ name) st).1.progress.UpdateState 1 }
        dsimp only [ProgressReporter.UpdateState] at ih ⊢
        omega

end



theorem makeDeletable_listed_ok (opts : Options) (cf rf : Bool) (es : EntryList)
    (path : String) (st : DState) (hok : opts.DryRun = true ∨ cf = false) :
    (makeDeletable opts (.dir cf rf es) path st).2 = true := by
  unfold makeDeletable
  rcases hok with h | h
  · rw [h]
    rfl
  · rw [show (FSNode.dir cf rf es).chmodF = cf from rfl, h]
    split
    · rfl
    · rfl

theorem gap_deleteRec_listed (opts : Options) (path : String) (cf : Bool) (es : EntryList)
    (st : DState) (hok : opts.DryRun = true ∨ cf = false) :
    st.progress.Total - st.progress.Processed + es.gapEntries opts ≤
      (deleteRec opts path (.dir cf false es) st).1.progress.Total -
        (deleteRec opts path (.dir cf false es) st).1.progress.Processed := by
  have hm2 := makeDeletable_listed_ok opts cf false es path st hok
  have hmp := makeDeletable_progress opts (.dir cf false es) path st
  have hT := congrArg ProgressReporter.Total hmp
  have hP := congrArg ProgressReporter.Processed hmp
  have hge := gap_deleteEntries opts path es
    { (makeDeletable opts (FSNode.dir cf false es) path st).1 with
      progress :=
        { (makeDeletable opts (FSNode.dir cf false es) path st).1.progress with
          Total := (makeDeletable opts (FSNode.dir cf false es) path st).1.progress.Total
            + (es.length : Int) } }
  unfold deleteRec
  dsimp only
  simp only [hm2, Bool.not_true, Bool.false_eq_true, if_false]
  dsimp only at hge hT hP ⊢
  split
  · dsimp only
    omega
  · split
    · dsimp only
      omega
    · rw [addError_progress]
      omega

/- ## C10 amended -/

/-- C10 amended: `Total` is advanced by the full entry count of each listed
directory while `Processed` advances only for non-directory, non-skipped
entries; hence whenever root validation passes, the root directory is
actually listed (its chmod succeeded or the run is dry, and its listing
succeeds) and its listing contains at least one subdirectory or skipped
symlink, the completed `Delete` ends with `Processed` strictly below `Total`
— the reported progress never reaches 100%. -/
theorem subdir_keeps_progress_short (d : Deleter) (env : Env) (path : String)
    (cf : Bool) (es : EntryList)
    (hval : d.validatePath env path = none)
    (htree : env.lookup (env.resolve path) = some (.dir cf false es))
    (hok : d.config.DryRun = true ∨ cf = false)
    (hgap : 1 ≤ es.gapEntries d.config) :
    (d.Delete env path).progress.Processed < (d.Delete env path).progress.Total := by
  unfold Deleter.Delete
  rw [hval]
  dsimp only
  unfold deleteRoot
  rw [htree]
  have hg := gap_deleteRec_listed d.config (env.resolve path) cf es
    { stats := d.stats, progress := NewProgressReporter 0 0, ops := [] } hok
  dsimp only [NewProgressReporter] at hg ⊢
  omega

theorem subdir_keeps_progress_short_witness :
    ((New 1 []).Delete envDirWithSub "t").progress.Processed <
      ((New 1 []).Delete envDirWithSub "t").progress.Total :=
  subdir_keeps_progress_short (New 1 []) envDirWithSub "t" false
    (.cons "sub" (.dir false false .nil) .nil) (by decide) rfl (Or.inr rfl) (by decide)

theorem dry_vs_wet_counts_witness :
    (deleteRec { DefaultOptions 1 with DryRun := true } "/t"
      (.dir false false (.cons "f" (.file false false) .nil)) st0).1.stats.FilesDeleted = 1 ∧
    (deleteRec { DefaultOptions 1 with DryRun := false } "/t"
      (.dir false false (.cons "f" (.file false false) .nil)) st0).1.stats.FilesDeleted = 1 ∧
    (deleteRec { DefaultOptions 1 with DryRun := true } "/t"
      (.dir false false (.cons "f" (.file false false) .nil)) st0).1.stats.DirsDeleted = 0 ∧
    (deleteRec { DefaultOptions 1 with DryRun := false } "/t"
      (.dir false false (.cons "f" (.file false false) .nil)) st0).1.stats.DirsDeleted = 1 := by
  have h := dry_vs_wet_counts (DefaultOptions 1) "/t" false false
    (.cons "f" (.file false false) .nil) st0 (by decide)
  refine ⟨?_, ?_, ?_, ?_⟩
  · rw [h.1]; decide
  · rw [h.2.1]; decide
  · rw [h.2.2.1]; decide
  · rw [h.2.2.2.1]; decide


/- ## C8 amended -/

/-- C8 amended: `Update` computes rate and eta by unconditional division with
no guard: whenever the elapsed time is zero the rate is a zero-divisor
division (not reported as unavailable by any special case), and whenever the
elapsed time is nonzero but the advanced `Processed` is zero the eta is a
zero-divisor division. -/
theorem update_unguarded_divisions (p : ProgressReporter) (count : Int) (now : ℚ) :
    (now - p.startTime = 0 → (p.Update count now).rate = none) ∧
    (now - p.startTime ≠ 0 → p.Processed + count = 0 → (p.Update count now).eta = none) := by
  constructor
  · intro h
    simp [ProgressReporter.Update, fdiv, h]
  · intro h1 h2
    simp [ProgressReporter.Update, fdiv, h1, h2]

theorem update_unguarded_divisions_witness :
    ((NewProgressReporter 5 0).Update 1 0).rate = none ∧
    ((NewProgressReporter 5 0).Update 0 1).eta = none :=
  ⟨(update_unguarded_divisions (NewProgressReporter 5 0) 1 0).1 (by norm_num [NewProgressReporter]),
   (update_unguarded_divisions (NewProgressReporter 5 0) 0 1).2 (by norm_num [NewProgressReporter])
     (by norm_num [NewProgressReporter])⟩

end Rmrf
